import Mathlib

/-!
Shallow embedding of the loan amortization and payment application engine of
the provenance-loan-demo repository.  The engine lives in two Express route
handlers: the loan-creation handler (schedule generation, `POST /loans`) and
the payment handler (`POST /payments`, `PATCH /payments/:id`).  JavaScript
numbers are modelled as exact rationals (`ℚ`); dates are modelled as abstract
rational ordinates (only their ordering and equality matter to the engine).
Database rows are modelled as lists of records; a prisma `update where id`
is modelled as a map that replaces the row(s) with the given id.
-/

namespace LoanEngine

/-- Installment/payment status values accepted by `updatePaymentSchema`
(`'paid' | 'scheduled' | 'pending' | 'overdue' | 'cancelled'`). -/
inductive PStatus where
  | scheduled
  | paid
  | cancelled
  | pendingP
  | overdue
  deriving DecidableEq, Repr, Inhabited

/-- Loan status values accepted by `updateLoanSchema`
(`'pending' | 'approved' | 'active' | 'completed' | 'defaulted' | 'cancelled'`). -/
inductive LStatus where
  | pendingL
  | approved
  | active
  | completed
  | defaulted
  | cancelled
  deriving DecidableEq, Repr, Inhabited

/-- A row of the `payment` table: `amount`, `principal`, `interest`, `fees`,
`dueDate`, `status`, and the bookkeeping fields set when a payment is made. -/
structure Payment where
  id : Nat
  amount : ℚ
  principal : ℚ
  interest : ℚ
  fees : ℚ
  dueDate : ℚ
  status : PStatus
  paidDate : Option ℚ
  method : Option String
  reference : Option String
  notes : Option String
  deriving DecidableEq, Repr, Inhabited

/-- The fields of the `loan` table read or written by the engine:
`loanAmount`, `interestRate`, `loanTerm`, `status`, `monthlyPayment`. -/
structure Loan where
  loanAmount : ℚ
  interestRate : ℚ
  loanTerm : Nat
  status : LStatus
  monthlyPayment : ℚ
  deriving DecidableEq, Repr, Inhabited

/-- A loan together with all of its payment rows (the full per-loan state the
payment handler reads and writes). -/
structure LoanState where
  loan : Loan
  payments : List Payment
  deriving DecidableEq, Repr, Inhabited

/-- The body of `POST /payments` after validation: `amount`, `paymentMethod`,
optional `reference` and `notes` (the `loanId` is implicit: the state is the
addressed loan). -/
structure PaymentIntent where
  amount : ℚ
  method : String
  reference : Option String
  notes : Option String
  deriving DecidableEq, Repr, Inhabited

/-- The error responses of `POST /payments` that concern an existing loan:
`INVALID_LOAN_STATUS`, `NO_SCHEDULED_PAYMENTS`, `INSUFFICIENT_PAYMENT`. -/
inductive ApplyError where
  | invalidLoanStatus
  | noScheduledPayments
  | insufficientPayment
  deriving DecidableEq, Repr, Inhabited

/-- `interestRate / 100 / 12`, the monthly rate used by both handlers. -/
def monthlyRateOf (interestRate : ℚ) : ℚ := interestRate / 100 / 12

/-- The annuity formula `P * r * (1+r)^T / ((1+r)^T - 1)` used by the
loan-creation handler and by the re-amortization branch. -/
def annuityPayment (principal r : ℚ) (term : Nat) : ℚ :=
  principal * r * (1 + r) ^ term / ((1 + r) ^ term - 1)

/-- Row `i` (0-indexed) of the generated schedule, from the loan-creation
loop: `remainingBalance = loanAmount - monthlyPayment * i`,
`interest = remainingBalance * monthlyRate`, `principal = pay - interest`,
`amount = pay`, `fees = 0`, status `scheduled`.  The due date is modelled as
the ordinate `i + 1` (one calendar month apart, starting one month out). -/
def scheduleRow (loanAmount r pay : ℚ) (i : Nat) : Payment :=
  let remainingBalance := loanAmount - pay * i
  let interestPayment := remainingBalance * r
  let principalPayment := pay - interestPayment
  { id := i
    amount := pay
    principal := principalPayment
    interest := interestPayment
    fees := 0
    dueDate := (i : ℚ) + 1
    status := PStatus.scheduled
    paidDate := none
    method := none
    reference := none
    notes := none }

/-- The payment schedule created by `POST /loans`: `loanTerm` rows built by
`scheduleRow` with the annuity payment over the full term. -/
def generateSchedule (loanAmount interestRate : ℚ) (term : Nat) : List Payment :=
  let r := monthlyRateOf interestRate
  let pay := annuityPayment loanAmount r term
  (List.range term).map (scheduleRow loanAmount r pay)

/-- The numeric bounds of `createLoanSchema`:
`loanAmount` in [1000, 10000000], `interestRate` in [0.1, 30],
`loanTerm` in [1, 480].  (The remaining schema fields are strings and
borrower data with no bearing on the engine.) -/
def createLoanNumbersValid (loanAmount interestRate : ℚ) (loanTerm : Nat) : Bool :=
  decide (1000 ≤ loanAmount) && decide (loanAmount ≤ 10000000) &&
  decide (1/10 ≤ interestRate) && decide (interestRate ≤ 30) &&
  decide (1 ≤ loanTerm) && decide (loanTerm ≤ 480)

/-- Accumulator step for `findFirst ... orderBy dueDate asc`: keep the
earliest-due row seen so far, preferring the earlier row on ties. -/
def chooseEarlier (acc : Option Payment) (p : Payment) : Option Payment :=
  match acc with
  | none => some p
  | some q => if p.dueDate < q.dueDate then some p else some q

/-- `prisma.payment.findFirst({where: {status: 'scheduled'}, orderBy:
{dueDate: 'asc'}})`: the scheduled row with the earliest due date. -/
def nextScheduled (ps : List Payment) : Option Payment :=
  (ps.filter fun p => decide (p.status = PStatus.scheduled)).foldl chooseEarlier none

/-- Marking the matched row paid (`status: 'paid'`, `paidDate`, method,
reference, notes); the money fields are not touched. -/
def markPaid (p : Payment) (intent : PaymentIntent) (now : ℚ) : Payment :=
  { p with
    status := PStatus.paid
    paidDate := some now
    method := some intent.method
    reference := intent.reference
    notes := intent.notes }

/-- `allPayments.filter(p => p.status === 'paid').reduce((sum, p) => sum +
p.principal, 0)`. -/
def sumPaidPrincipal (ps : List Payment) : ℚ :=
  ((ps.filter fun p => decide (p.status = PStatus.paid)).map Payment.principal).sum

/-- The principal-prepayment row recorded for the excess amount:
`amount = principal = extra`, `interest = fees = 0`, the matched row's due
date, status `paid`, reference defaulting to `PRINCIPAL_PREPAYMENT`. -/
def prepayRow (newId : Nat) (extra dueDate now : ℚ) (intent : PaymentIntent) : Payment :=
  { id := newId
    amount := extra
    principal := extra
    interest := 0
    fees := 0
    dueDate := dueDate
    status := PStatus.paid
    paidDate := some now
    method := some intent.method
    reference := some (intent.reference.getD "PRINCIPAL_PREPAYMENT")
    notes := some ((intent.notes.map (fun n => n ++ " (Principal reduction)")).getD
      "Principal reduction") }

/-- The single final "balloon" row created when no scheduled rows remain but
the derived balance is still above the epsilon: `amount = principal = bal`,
`interest = fees = 0`, due 30 days (in milliseconds) after the matched due
date, status `scheduled`. -/
def balloonRow (newId : Nat) (bal dueDate : ℚ) : Payment :=
  { id := newId
    amount := bal
    principal := bal
    interest := 0
    fees := 0
    dueDate := dueDate + 30 * 24 * 60 * 60 * 1000
    status := PStatus.scheduled
    paidDate := none
    method := none
    reference := none
    notes := none }

/-- The remaining-schedule query of the prepayment branch: all rows that are
still `scheduled` and due strictly after the matched row, in due-date
order. -/
def insertByDue (p : Payment) : List Payment → List Payment
  | [] => [p]
  | q :: qs => if p.dueDate < q.dueDate then p :: q :: qs else q :: insertByDue p qs

/-- Sorting by due date (stable insertion sort; the JS comparator
`(a, b) => a.dueDate < b.dueDate ? -1 : 1` leaves the order of equal due
dates unspecified, so any due-date sort is a faithful model). -/
def sortByDue (ps : List Payment) : List Payment := ps.foldr insertByDue []

def scheduledAfter (ps : List Payment) (d : ℚ) : List Payment :=
  sortByDue (ps.filter fun p => decide (p.status = PStatus.scheduled) && decide (d < p.dueDate))

/-- The new level payment of the re-amortization branch: equal division at
zero rate, otherwise the annuity formula over the remaining term. -/
def newMonthlyFor (bal r : ℚ) (term : Nat) : ℚ :=
  if r = 0 then bal / term else annuityPayment bal r term

/-- The re-amortization loop.  For each remaining row in due-date order:
`interest = (r == 0 ? 0 : cursor * r)`, `principal = pay - interest` — but on
the last row `principal = max 0 cursor` — `amount = pay` (last row:
`principal + interest`), and the cursor becomes `max 0 (cursor - principal)`.
Only the three money fields are written. -/
def reamortWalk (r pay : ℚ) : ℚ → List Payment → List Payment
  | _, [] => []
  | cursor, [p] =>
      let interestPortion := if r = 0 then 0 else cursor * r
      let principalPortion := max 0 cursor
      [{ p with
          amount := principalPortion + interestPortion
          principal := principalPortion
          interest := interestPortion }]
  | cursor, p :: q :: ps =>
      let interestPortion := if r = 0 then 0 else cursor * r
      let principalPortion := pay - interestPortion
      { p with
          amount := pay
          principal := principalPortion
          interest := interestPortion }
        :: reamortWalk r pay (max 0 (cursor - principalPortion)) (q :: ps)

/-- `prisma.payment.update` for each walked row, addressed by id. -/
def applyUpdates (all upd : List Payment) : List Payment :=
  all.map fun p =>
    match upd.find? (fun u => decide (u.id = p.id)) with
    | some u => u
    | none => p

/-- `prisma.payment.updateMany({where: {id: {in: ids}}, data: {status:
'cancelled'}})`. -/
def cancelIds (all : List Payment) (ids : List Nat) : List Payment :=
  all.map fun p => if p.id ∈ ids then { p with status := PStatus.cancelled } else p

/-- The payment list after the matched row `np` has been marked paid. -/
def paidListOf (s : LoanState) (intent : PaymentIntent) (now : ℚ) (np : Payment) :
    List Payment :=
  s.payments.map fun p => if p.id = np.id then markPaid np intent now else p

/-- The `allPayments` list the prepayment branch reloads: the marked-paid list
plus the freshly created prepayment row. -/
def allRowsOf (s : LoanState) (intent : PaymentIntent) (now : ℚ) (newId : Nat)
    (np : Payment) : List Payment :=
  paidListOf s intent now np ++ [prepayRow newId (intent.amount - np.amount) np.dueDate now intent]

/-- `remainingBalance = loan.loanAmount - principalPaidSoFar - extraPrincipal`
(line 268 of the payment handler), computed over the reloaded `all` list. -/
def codeBalanceOf (loan : Loan) (all : List Payment) (extra : ℚ) : ℚ :=
  loan.loanAmount - sumPaidPrincipal all - extra

/-- The prepayment branch of `POST /payments` (everything under
`if (extraPrincipal > 0)`), acting on the reloaded `all` list. -/
def applyExtraBranch (loan : Loan) (all : List Payment) (extra matchedDue : ℚ)
    (newId2 : Nat) : LoanState :=
  let remainingBalance := codeBalanceOf loan all extra
  let schedRem := scheduledAfter all matchedDue
  let r := monthlyRateOf loan.interestRate
  if schedRem.length = 0 then
    if remainingBalance ≤ 1/100 then
      ⟨{ loan with status := LStatus.completed }, all⟩
    else
      ⟨loan, all ++ [balloonRow newId2 remainingBalance matchedDue]⟩
  else
    if remainingBalance ≤ 1/100 then
      ⟨{ loan with status := LStatus.completed, monthlyPayment := 0 },
        cancelIds all (schedRem.map Payment.id)⟩
    else
      let newMonthly := newMonthlyFor remainingBalance r schedRem.length
      ⟨{ loan with monthlyPayment := newMonthly },
        applyUpdates all (reamortWalk r newMonthly remainingBalance schedRem)⟩

/-- The `POST /payments` handler on one loan's state.  Returns the outcome
(`ok` or one of the typed errors) together with the state of the loan and its
rows when the handler returns; `newId` and `newId + 1` are the ids the
database would assign to rows created by this call. -/
def applyPayment (s : LoanState) (intent : PaymentIntent) (now : ℚ) (newId : Nat) :
    Except ApplyError Unit × LoanState :=
  if s.loan.status = LStatus.active ∨ s.loan.status = LStatus.approved then
    match nextScheduled s.payments with
    | none => (Except.error ApplyError.noScheduledPayments, s)
    | some np =>
      if intent.amount + 1/1000000 < np.amount then
        (Except.error ApplyError.insufficientPayment, s)
      else
        let extra := intent.amount - np.amount
        if 0 < extra then
          (Except.ok (),
            applyExtraBranch s.loan (allRowsOf s intent now newId np) extra np.dueDate
              (newId + 1))
        else
          (Except.ok (), ⟨s.loan, paidListOf s intent now np⟩)
  else (Except.error ApplyError.invalidLoanStatus, s)

/-- One request against the payment handler: the intent, the clock value, and
the fresh row id. -/
structure PayReq where
  intent : PaymentIntent
  now : ℚ
  newId : Nat
  deriving DecidableEq, Repr, Inhabited

/-- A sequence of successful `applyPayment` calls; `none` when any call in
the sequence is rejected. -/
def applySeq : LoanState → List PayReq → Option LoanState
  | s, [] => some s
  | s, req :: reqs =>
    match applyPayment s req.intent req.now req.newId with
    | (Except.ok _, s1) => applySeq s1 reqs
    | (Except.error _, _) => none

/-- `Σ principalPortion` over the paid rows of a state. -/
def paidPrincipal (s : LoanState) : ℚ := sumPaidPrincipal s.payments

/-- The outstanding balance, tracked implicitly as
`principal − paidPrincipalSoFar` (spec §3). -/
def outstandingBalance (s : LoanState) : ℚ := s.loan.loanAmount - paidPrincipal s

/-- The `PATCH /payments/:id` body after `updatePaymentSchema` validation:
every field optional, `status` ranging over all five status strings. -/
structure PaymentUpdate where
  status : Option PStatus
  paidDate : Option ℚ
  method : Option String
  reference : Option String
  notes : Option String
  deriving DecidableEq, Repr, Inhabited

/-- The `PATCH /payments/:id` update: each provided field overwrites the
stored row, with no check against the row's current status. -/
def updatePayment (p : Payment) (u : PaymentUpdate) : Payment :=
  { p with
    status := u.status.getD p.status
    paidDate := (u.paidDate.map some).getD p.paidDate
    method := (u.method.map some).getD p.method
    reference := (u.reference.map some).getD p.reference
    notes := (u.notes.map some).getD p.notes }

end LoanEngine

namespace LoanEngine

/-! ### Basic lemmas about the handler's control flow -/

theorem applyExtraBranch_loanAmount (loan : Loan) (all : List Payment)
    (extra matchedDue : ℚ) (newId2 : Nat) :
    (applyExtraBranch loan all extra matchedDue newId2).loan.loanAmount = loan.loanAmount := by
  unfold applyExtraBranch
  dsimp only
  split
  · split <;> rfl
  · split <;> rfl

theorem applyPayment_loanAmount (s : LoanState) (intent : PaymentIntent) (now : ℚ)
    (newId : Nat) :
    ((applyPayment s intent now newId).2).loan.loanAmount = s.loan.loanAmount := by
  unfold applyPayment
  dsimp only
  split
  · split
    · rfl
    · split
      · rfl
      · split
        · exact applyExtraBranch_loanAmount _ _ _ _ _
        · rfl
  · rfl

theorem applySeq_loanAmount (reqs : List PayReq) : ∀ s0 s : LoanState,
    applySeq s0 reqs = some s → s.loan.loanAmount = s0.loan.loanAmount := by
  induction reqs with
  | nil =>
    intro s0 s h
    simp only [applySeq, Option.some.injEq] at h
    rw [h]
  | cons req reqs ih =>
    intro s0 s h
    simp only [applySeq] at h
    rcases hap : applyPayment s0 req.intent req.now req.newId with ⟨out, s1⟩
    rw [hap] at h
    cases out with
    | ok u =>
      have h1 : s1.loan.loanAmount = s0.loan.loanAmount := by
        have := applyPayment_loanAmount s0 req.intent req.now req.newId
        rw [hap] at this
        exact this
      exact (ih s1 s h).trans h1
    | error e => simp at h

end LoanEngine

namespace LoanEngine

theorem foldl_chooseEarlier_some (l : List Payment) : ∀ (acc : Option Payment) (q : Payment),
    l.foldl chooseEarlier acc = some q → q ∈ l ∨ acc = some q := by
  induction l with
  | nil => intro acc q h; exact Or.inr h
  | cons p l ih =>
    intro acc q h
    rcases ih (chooseEarlier acc p) q h with hq | hq
    · exact Or.inl (List.mem_cons_of_mem _ hq)
    · cases acc with
      | none =>
        simp only [chooseEarlier, Option.some.injEq] at hq
        exact Or.inl (hq ▸ List.mem_cons_self _ _)
      | some a =>
        simp only [chooseEarlier] at hq
        by_cases hlt : p.dueDate < a.dueDate
        · rw [if_pos hlt, Option.some.injEq] at hq
          exact Or.inl (hq ▸ List.mem_cons_self _ _)
        · rw [if_neg hlt] at hq
          exact Or.inr hq

theorem nextScheduled_mem {ps : List Payment} {np : Payment} (h : nextScheduled ps = some np) :
    np ∈ ps ∧ np.status = PStatus.scheduled := by
  unfold nextScheduled at h
  rcases foldl_chooseEarlier_some _ none np h with hm | hm
  · rw [List.mem_filter] at hm
    exact ⟨hm.1, of_decide_eq_true hm.2⟩
  · simp at hm

/-! ### Concrete demo states used by witnesses and counterexamples -/

/-- A scheduled installment row with the given id, due date and money split. -/
def schedP (i : Nat) (d amt pr intr : ℚ) : Payment :=
  { id := i, amount := amt, principal := pr, interest := intr, fees := 0, dueDate := d,
    status := PStatus.scheduled, paidDate := none, method := none, reference := none,
    notes := none }

/-- A one-installment active demo loan: principal 1000, one scheduled row of
1000 due at ordinate 1. -/
def demoS0 : LoanState :=
  { loan := { loanAmount := 1000, interestRate := 12, loanTerm := 1, status := LStatus.active,
              monthlyPayment := 1000 },
    payments := [schedP 1 1 1000 1000 0] }

/-- An exact payment of the demo loan's single installment. -/
def demoIntent : PaymentIntent :=
  { amount := 1000, method := "cash", reference := none, notes := none }

/-- The state after paying the demo loan's installment exactly. -/
def demoS1 : LoanState := (applyPayment demoS0 demoIntent 0 5).2

/-! ### C1 -/

/-- C1: Balance conservation — after every sequence of successful
`ApplyPayment` calls, the sum of `principalPortion` over Paid installments
plus the outstanding balance (defined as principal minus principal paid so
far) equals the loan's original principal, hence is within 0.01 of it. -/
theorem C1_balance_conservation (s0 : LoanState) (reqs : List PayReq) (s : LoanState)
    (h : applySeq s0 reqs = some s) :
    paidPrincipal s + outstandingBalance s = s0.loan.loanAmount ∧
      |paidPrincipal s + outstandingBalance s - s0.loan.loanAmount| ≤ 1 / 100 := by
  have hA : s.loan.loanAmount = s0.loan.loanAmount := applySeq_loanAmount reqs s0 s h
  have he : paidPrincipal s + outstandingBalance s = s.loan.loanAmount := by
    unfold outstandingBalance
    ring
  rw [he, hA]
  refine ⟨rfl, by simp⟩

/-- Witness for C1 at a concrete one-payment run. -/
theorem C1_balance_conservation_witness :
    applySeq demoS0 [⟨demoIntent, 0, 5⟩] = some demoS1 ∧
      (paidPrincipal demoS1 + outstandingBalance demoS1 = demoS0.loan.loanAmount ∧
        |paidPrincipal demoS1 + outstandingBalance demoS1 - demoS0.loan.loanAmount| ≤ 1 / 100) :=
  ⟨by norm_num +decide [applySeq, applyPayment, demoS0, demoIntent, demoS1, nextScheduled,
      chooseEarlier, schedP, paidListOf, markPaid, List.filter_cons],
    C1_balance_conservation demoS0 [⟨demoIntent, 0, 5⟩] demoS1
      (by norm_num +decide [applySeq, applyPayment, demoS0, demoIntent, demoS1, nextScheduled,
        chooseEarlier, schedP, paidListOf, markPaid, List.filter_cons])⟩

end LoanEngine

namespace LoanEngine

/-! ### C7 -/

/-- C7 (amended): every `applyPayment` call that returns one of the typed
errors (invalid loan status, no scheduled installment, insufficient amount)
leaves the loan and every installment row unchanged.  (The original claim's
"in particular" clause fails: an amount within `1e-6` below the due amount is
accepted, see the counterexample.) -/
theorem C7_rejection_atomicity (s : LoanState) (intent : PaymentIntent) (now : ℚ)
    (newId : Nat) (e : ApplyError)
    (h : (applyPayment s intent now newId).1 = Except.error e) :
    (applyPayment s intent now newId).2 = s := by
  revert h
  unfold applyPayment
  dsimp only
  split
  · split
    · intro _
      rfl
    · split
      · intro _
        rfl
      · split
        · intro h
          simp at h
        · intro h
          simp at h
  · intro _
    rfl

/-- Demo loan for C7: one scheduled installment of 1000. -/
def cs7 : LoanState :=
  { loan := { loanAmount := 2000, interestRate := 12, loanTerm := 2, status := LStatus.active,
              monthlyPayment := 1000 },
    payments := [schedP 1 1 1000 900 100] }

/-- A payment strictly below the due amount, but within the 1e-6 tolerance. -/
def i7 : PaymentIntent :=
  { amount := 1000 - 1/2000000, method := "cash", reference := none, notes := none }

/-- C7 counterexample: an amount strictly less than the due `amountDue`
(by `5e-7`) is accepted, and the state is mutated. -/
theorem C7_counterexample :
    (nextScheduled cs7.payments).map Payment.amount = some 1000 ∧
      i7.amount < 1000 ∧
      (applyPayment cs7 i7 0 9).1 = Except.ok () ∧
      (applyPayment cs7 i7 0 9).2 ≠ cs7 := by
  refine ⟨by norm_num +decide [nextScheduled, cs7, schedP, chooseEarlier, List.filter_cons],
    by norm_num [i7], ?_, ?_⟩ <;>
    norm_num +decide [applyPayment, cs7, i7, nextScheduled, chooseEarlier, schedP,
      paidListOf, markPaid, List.filter_cons]

/-- Witness for C7 at a rejected (insufficient) concrete payment. -/
theorem C7_rejection_atomicity_witness :
    (applyPayment cs7 ⟨1, "cash", none, none⟩ 0 9).1 =
        Except.error ApplyError.insufficientPayment ∧
      (applyPayment cs7 ⟨1, "cash", none, none⟩ 0 9).2 = cs7 :=
  ⟨by norm_num +decide [applyPayment, cs7, nextScheduled, chooseEarlier, schedP,
      List.filter_cons],
    C7_rejection_atomicity cs7 ⟨1, "cash", none, none⟩ 0 9 ApplyError.insufficientPayment
      (by norm_num +decide [applyPayment, cs7, nextScheduled, chooseEarlier, schedP,
        List.filter_cons])⟩

end LoanEngine

namespace LoanEngine

/-! ### C2 -/

theorem generateSchedule_getD (A rate : ℚ) (T i : Nat) (hi : i < T) :
    (generateSchedule A rate T).getD i default =
      scheduleRow A (monthlyRateOf rate) (annuityPayment A (monthlyRateOf rate) T) i := by
  unfold generateSchedule
  rw [List.getD_eq_getElem?_getD, List.getElem?_map, List.getElem?_range hi]
  rfl

/-- C2: the generated schedule's interest portions follow the balance
`loanAmount - monthlyPayment * i` (the balance is decremented by the full
level payment each period), not the claimed recurrence
`remainingBalance_{i+1} = remainingBalance_i - principalPortion_i`: at
`principal = 100000`, annual rate 6 (monthly rate > 0) and term 12,
installment 1's interest differs from `(P - principalPortion_0) * r`. -/
theorem C2_schedule_recurrence_eval :
    ((generateSchedule 100000 6 12).getD 1 default).interest =
        (100000 - annuityPayment 100000 (monthlyRateOf 6) 12) * monthlyRateOf 6 ∧
      ((generateSchedule 100000 6 12).getD 1 default).interest ≠
        (100000 - ((generateSchedule 100000 6 12).getD 0 default).principal) * monthlyRateOf 6 := by
  rw [generateSchedule_getD 100000 6 12 1 (by norm_num),
    generateSchedule_getD 100000 6 12 0 (by norm_num)]
  unfold scheduleRow
  dsimp only
  constructor
  · norm_num
  · norm_num [annuityPayment, monthlyRateOf]

/-! ### C8 -/

/-- C8 counterexample: annual rate 0 is not accepted by the loan-creation
validation — `createLoanSchema` requires `interestRate ≥ 0.1`. -/
theorem C8_counterexample :
    createLoanNumbersValid 100000 0 12 = false ∧ ¬ ((1:ℚ)/10 ≤ 0) := by
  constructor
  · simp only [createLoanNumbersValid, Bool.and_eq_false_iff, decide_eq_false_iff_not]
    norm_num
  · norm_num

/-- C8 (amended): loan creation accepts only rates in `[0.1, 30]`, so
`GenerateSchedule` is never invoked with rate 0 (zero-rate handling exists
only in the re-amortization branch). -/
theorem C8_rate_bounds (A rate : ℚ) (T : Nat)
    (h : createLoanNumbersValid A rate T = true) : 1/10 ≤ rate ∧ rate ≤ 30 := by
  unfold createLoanNumbersValid at h
  simp only [Bool.and_eq_true, decide_eq_true_eq] at h
  exact ⟨h.1.1.1.2, h.1.1.2⟩

/-- Witness for C8 at an accepted concrete loan. -/
theorem C8_rate_bounds_witness :
    createLoanNumbersValid 100000 6 12 = true ∧ ((1:ℚ)/10 ≤ 6 ∧ (6:ℚ) ≤ 30) :=
  ⟨by simp only [createLoanNumbersValid, Bool.and_eq_true, decide_eq_true_eq]; norm_num,
    C8_rate_bounds 100000 6 12
      (by simp only [createLoanNumbersValid, Bool.and_eq_true, decide_eq_true_eq]; norm_num)⟩

end LoanEngine

namespace LoanEngine

/-! ### C4 -/

/-- C4 counterexample: paying the demo loan's single (final) installment
exactly — zero excess — leaves no scheduled installment and a zero
outstanding balance, yet the loan's status stays `active` instead of
transitioning to `completed`. -/
theorem C4_counterexample :
    (applyPayment demoS0 demoIntent 0 5).1 = Except.ok () ∧
      nextScheduled ((applyPayment demoS0 demoIntent 0 5).2.payments) = none ∧
      outstandingBalance ((applyPayment demoS0 demoIntent 0 5).2) = 0 ∧
      (applyPayment demoS0 demoIntent 0 5).2.loan.status = LStatus.active ∧
      (applyPayment demoS0 demoIntent 0 5).2.loan.status ≠ LStatus.completed := by
  norm_num +decide [applyPayment, demoS0, demoIntent, nextScheduled, chooseEarlier, schedP,
    paidListOf, markPaid, outstandingBalance, paidPrincipal, sumPaidPrincipal,
    List.filter_cons]

/-- C4 (amended): the loan can only transition to `completed` through the
positive-excess branch: a successful zero-excess payment never changes the
loan record at all, while a successful positive-excess payment whose derived
remaining balance is at most 0.01 always completes the loan. -/
theorem C4_completion_requires_excess (s : LoanState) (intent : PaymentIntent) (now : ℚ)
    (newId : Nat) (np : Payment)
    (hst : s.loan.status = LStatus.active ∨ s.loan.status = LStatus.approved)
    (hnp : nextScheduled s.payments = some np)
    (hins : ¬ intent.amount + 1/1000000 < np.amount) :
    (intent.amount ≤ np.amount →
        (applyPayment s intent now newId).1 = Except.ok () ∧
          (applyPayment s intent now newId).2.loan = s.loan) ∧
      (0 < intent.amount - np.amount →
        codeBalanceOf s.loan (allRowsOf s intent now newId np)
            (intent.amount - np.amount) ≤ 1/100 →
        (applyPayment s intent now newId).2.loan.status = LStatus.completed) := by
  unfold applyPayment
  rw [if_pos hst, hnp]
  dsimp only
  rw [if_neg hins]
  constructor
  · intro hle
    rw [if_neg (by linarith : ¬ (0 : ℚ) < intent.amount - np.amount)]
    exact ⟨rfl, rfl⟩
  · intro hpos hbal
    rw [if_pos hpos]
    unfold applyExtraBranch
    dsimp only
    split
    · rfl
    · rfl

/-- Witness for C4 at concrete inputs: an exact payment (left conjunct) on
the demo loan, and an over-payment (right conjunct) clearing the balance. -/
theorem C4_completion_requires_excess_witness :
    ((demoS0.loan.status = LStatus.active ∨ demoS0.loan.status = LStatus.approved) ∧
        nextScheduled demoS0.payments = some (schedP 1 1 1000 1000 0) ∧
        ¬ demoIntent.amount + 1/1000000 < (schedP 1 1 1000 1000 0).amount) ∧
      (demoIntent.amount ≤ (schedP 1 1 1000 1000 0).amount →
          (applyPayment demoS0 demoIntent 0 5).1 = Except.ok () ∧
            (applyPayment demoS0 demoIntent 0 5).2.loan = demoS0.loan) ∧
        (0 < demoIntent.amount - (schedP 1 1 1000 1000 0).amount →
          codeBalanceOf demoS0.loan (allRowsOf demoS0 demoIntent 0 5 (schedP 1 1 1000 1000 0))
              (demoIntent.amount - (schedP 1 1 1000 1000 0).amount) ≤ 1/100 →
          (applyPayment demoS0 demoIntent 0 5).2.loan.status = LStatus.completed) :=
  ⟨⟨Or.inl rfl,
      by norm_num +decide [nextScheduled, demoS0, demoIntent, schedP, chooseEarlier,
        List.filter_cons],
      by norm_num [demoIntent, schedP]⟩,
    C4_completion_requires_excess demoS0 demoIntent 0 5 (schedP 1 1 1000 1000 0)
      (Or.inl rfl)
      (by norm_num +decide [nextScheduled, demoS0, demoIntent, schedP, chooseEarlier,
        List.filter_cons])
      (by norm_num [demoIntent, schedP])⟩

end LoanEngine

namespace LoanEngine

/-! ### C6 counterexample, C10 counterexample, C3 evaluation -/

/-- A paid installment row (the demo row 3, already paid). -/
def paidRow6 : Payment := { schedP 3 1 100 90 10 with status := PStatus.paid }

/-- A `PATCH /payments/:id` body setting `status` back to `scheduled`. -/
def schedUpd6 : PaymentUpdate :=
  { status := some PStatus.scheduled, paidDate := none, method := none, reference := none,
    notes := none }

/-- C6 counterexample: the `PATCH /payments/:id` operation exposed by the
program accepts `status: 'scheduled'` on a Paid installment and transitions
it Paid → Scheduled. -/
theorem C6_counterexample :
    paidRow6.status = PStatus.paid ∧
      (updatePayment paidRow6 schedUpd6).status = PStatus.scheduled :=
  ⟨rfl, rfl⟩

/-- The C10 state: principal 1000, monthly payment 500, a single scheduled
installment of 500 (principal 450) — the matched installment is the last. -/
def s10 : LoanState :=
  { loan := { loanAmount := 1000, interestRate := 12, loanTerm := 1, status := LStatus.active,
              monthlyPayment := 500 },
    payments := [schedP 1 1 500 450 50] }

/-- A payment of 2500 against the 500 due: excess 2000 exceeds the whole
outstanding balance (1000). -/
def i10 : PaymentIntent := { amount := 2500, method := "cash", reference := none, notes := none }

/-- C10 counterexample: when the matched installment is the last scheduled
one, an over-overpayment completes the loan but `monthlyPayment` keeps its
previous (non-zero) value instead of being set to 0 as the claim states. -/
theorem C10_counterexample :
    (nextScheduled s10.payments).map Payment.amount = some 500 ∧
      outstandingBalance s10 = 1000 ∧
      i10.amount - 500 = 2000 ∧
      (applyPayment s10 i10 0 8).1 = Except.ok () ∧
      (applyPayment s10 i10 0 8).2.loan.status = LStatus.completed ∧
      (applyPayment s10 i10 0 8).2.loan.monthlyPayment = 500 ∧
      (500 : ℚ) ≠ 0 := by
  norm_num +decide [applyPayment, applyExtraBranch, s10, i10, nextScheduled, chooseEarlier,
    schedP, paidListOf, allRowsOf, markPaid, prepayRow, codeBalanceOf, sumPaidPrincipal,
    scheduledAfter, sortByDue, insertByDue, outstandingBalance, paidPrincipal,
    List.filter_cons]

/-- The C3 state: principal 2000, rate 12%, two scheduled installments of
1000 (principal 900, interest 100) due at ordinates 1 and 2. -/
def s3 : LoanState :=
  { loan := { loanAmount := 2000, interestRate := 12, loanTerm := 2, status := LStatus.active,
              monthlyPayment := 1000 },
    payments := [schedP 1 1 1000 900 100, schedP 2 2 1000 900 100] }

/-- A payment of 1100 against the 1000 due: excess 100. -/
def i3 : PaymentIntent := { amount := 1100, method := "cash", reference := none, notes := none }

/-- C3: the balance the re-amortizer works from double-counts the excess.
After paying 1100 (excess 100), the paid rows carry principal 900 + 100 =
1000, so the claim's balance is 2000 − 1000 = 1000; but the code also
subtracts the excess again and re-amortizes over 900: with one remaining
installment, that installment's principal portion is set to the full balance
used, and it comes out as 900, not 1000. -/
theorem C3_double_subtraction_eval :
    sumPaidPrincipal ((applyPayment s3 i3 0 10).2.payments) = 1000 ∧
      codeBalanceOf s3.loan (allRowsOf s3 i3 0 10 (schedP 1 1 1000 900 100)) (i3.amount - 1000) =
        900 ∧
      ((applyPayment s3 i3 0 10).2.payments.find? fun p => decide (p.id = 2)).map
          Payment.principal = some 900 ∧
      (900 : ℚ) ≠ 2000 - 1000 := by
  norm_num +decide [applyPayment, applyExtraBranch, s3, i3, nextScheduled, chooseEarlier,
    schedP, paidListOf, allRowsOf, markPaid, prepayRow, codeBalanceOf, sumPaidPrincipal,
    scheduledAfter, sortByDue, insertByDue, newMonthlyFor, annuityPayment, monthlyRateOf,
    reamortWalk, applyUpdates, List.filter_cons, List.find?]

end LoanEngine

namespace LoanEngine

/-! ### The exact annuity balance recursion behind the re-amortization walk -/

/-- The unclamped balance recursion of the walk: `b_0 = c`,
`b_{k+1} = b_k * (1 + r) - pay`. -/
def iterBal (r pay c : ℚ) : ℕ → ℚ
  | 0 => c
  | k + 1 => iterBal r pay c k * (1 + r) - pay

theorem iterBal_shift (r pay c : ℚ) (k : ℕ) :
    iterBal r pay (c * (1 + r) - pay) k = iterBal r pay c (k + 1) := by
  induction k with
  | zero => rfl
  | succ k ih => simp only [iterBal, ih]

theorem iterBal_zero_rate (pay c : ℚ) (k : ℕ) : iterBal 0 pay c k = c - k * pay := by
  induction k with
  | zero => simp [iterBal]
  | succ k ih =>
    rw [iterBal, ih]
    push_cast
    ring

theorem iterBal_closed (r pay c : ℚ) (hr : r ≠ 0) (k : ℕ) :
    iterBal r pay c k = c * (1 + r) ^ k - pay * ((1 + r) ^ k - 1) / r := by
  induction k with
  | zero => simp [iterBal]
  | succ k ih =>
    rw [iterBal, ih, pow_succ]
    field_simp
    ring

theorem iterBal_annuity (B r : ℚ) (T : ℕ) (hr : 0 < r) (hT : T ≠ 0) (k : ℕ) :
    iterBal r (annuityPayment B r T) B k =
      B * ((1 + r) ^ T - (1 + r) ^ k) / ((1 + r) ^ T - 1) := by
  have hgt : (1:ℚ) < (1 + r) ^ T := one_lt_pow₀ (by linarith) hT
  have hD : (1 + r) ^ T - 1 ≠ 0 := ne_of_gt (by linarith)
  rw [iterBal_closed r _ B (ne_of_gt hr)]
  unfold annuityPayment
  field_simp
  ring

theorem iterBal_annuity_nonneg (B r : ℚ) (T : ℕ) (hB : 0 ≤ B) (hr : 0 < r) (hT : T ≠ 0)
    (k : ℕ) (hk : k ≤ T) : 0 ≤ iterBal r (annuityPayment B r T) B k := by
  rw [iterBal_annuity B r T hr hT k]
  have h1 : (1:ℚ) ≤ 1 + r := by linarith
  have hpk : (1 + r) ^ k ≤ (1 + r) ^ T := pow_le_pow_right₀ h1 hk
  have hgt : (1:ℚ) < (1 + r) ^ T := one_lt_pow₀ (by linarith) hT
  apply div_nonneg
  · apply mul_nonneg hB
    linarith
  · linarith

theorem iterBal_zero_nonneg (B : ℚ) (T : ℕ) (hB : 0 ≤ B) (hT : T ≠ 0)
    (k : ℕ) (hk : k ≤ T) : 0 ≤ iterBal 0 (B / T) B k := by
  rw [iterBal_zero_rate]
  have hT0 : (0:ℚ) < T := by
    exact_mod_cast Nat.pos_of_ne_zero hT
  have h1 : (k:ℚ) * (B / T) ≤ (T:ℚ) * (B / T) := by
    apply mul_le_mul_of_nonneg_right
    · exact_mod_cast hk
    · positivity
  have h2 : (T:ℚ) * (B / T) = B := by
    field_simp
  linarith

theorem iterBal_newMonthly_nonneg (B r : ℚ) (T : ℕ) (hB : 0 ≤ B) (hr : 0 ≤ r) (hT : T ≠ 0)
    (k : ℕ) (hk : k ≤ T) : 0 ≤ iterBal r (newMonthlyFor B r T) B k := by
  unfold newMonthlyFor
  by_cases h : r = 0
  · subst h
    rw [if_pos rfl]
    exact iterBal_zero_nonneg B T hB hT k hk
  · rw [if_neg h]
    exact iterBal_annuity_nonneg B r T hB (lt_of_le_of_ne hr (Ne.symm h)) hT k hk

end LoanEngine

namespace LoanEngine

/-! ### The claimed walk postcondition -/

/-- The re-amortization postcondition of spec §4.4, relative to a balance
cursor: every original row is rewritten keeping `id`, `dueDate` and
`status`; each row gets `interest = cursor * r`, `principal = pay -
interest`, `amount = pay`, and the cursor then decreases by the principal
portion — except the last row, whose principal is the exact remaining cursor
and whose amount is `principal + interest`. -/
def walkSpec (r pay : ℚ) : ℚ → List Payment → List Payment → Prop
  | _, [], [] => True
  | cursor, [p], [q] =>
      q.interest = cursor * r ∧ q.principal = cursor ∧
        q.amount = q.principal + q.interest ∧
        q.id = p.id ∧ q.dueDate = p.dueDate ∧ q.status = p.status
  | cursor, p :: p2 :: ps, q :: qs =>
      q.interest = cursor * r ∧ q.principal = pay - q.interest ∧ q.amount = pay ∧
        q.id = p.id ∧ q.dueDate = p.dueDate ∧ q.status = p.status ∧
        walkSpec r pay (cursor - q.principal) (p2 :: ps) qs
  | _, _, _ => False

theorem reamortWalk_walkSpec (r pay : ℚ) :
    ∀ (ps : List Payment) (c : ℚ),
      (∀ k, k ≤ ps.length → 0 ≤ iterBal r pay c k) →
      walkSpec r pay c ps (reamortWalk r pay c ps) := by
  intro ps
  induction ps with
  | nil =>
    intro c _
    simp only [reamortWalk, walkSpec]
  | cons p ps ih =>
    intro c hnn
    have hi : (if r = 0 then (0:ℚ) else c * r) = c * r := by
      by_cases h : r = 0 <;> simp [h]
    cases ps with
    | nil =>
      have h0 : 0 ≤ c := by
        have := hnn 0 (by simp)
        simpa [iterBal] using this
      dsimp only [reamortWalk, walkSpec]
      refine ⟨hi, max_eq_right h0, rfl, rfl, rfl, rfl⟩
    | cons p2 ps2 =>
      have h1 : 0 ≤ c * (1 + r) - pay := by
        have := hnn 1 (by simp)
        simpa [iterBal] using this
      dsimp only [reamortWalk, walkSpec]
      refine ⟨hi, by rw [hi], rfl, rfl, rfl, rfl, ?_⟩
      have hc : c - (pay - (if r = 0 then (0:ℚ) else c * r)) = c * (1 + r) - pay := by
        rw [hi]
        ring
      rw [hc, max_eq_right h1]
      apply ih
      intro k hk
      rw [iterBal_shift]
      apply hnn
      simpa using Nat.succ_le_succ hk

end LoanEngine

namespace LoanEngine

/-! ### Order and membership lemmas for the due-date sort -/

/-- Due-date order between payment rows. -/
def dueLE (a b : Payment) : Prop := a.dueDate ≤ b.dueDate

theorem mem_insertByDue {b p : Payment} {l : List Payment} :
    b ∈ insertByDue p l ↔ b = p ∨ b ∈ l := by
  induction l with
  | nil => simp [insertByDue]
  | cons q qs ih =>
    unfold insertByDue
    by_cases h : p.dueDate < q.dueDate
    · rw [if_pos h]
      simp [List.mem_cons]
    · rw [if_neg h]
      simp only [List.mem_cons, ih]
      tauto

theorem mem_sortByDue {b : Payment} {l : List Payment} : b ∈ sortByDue l ↔ b ∈ l := by
  induction l with
  | nil => simp [sortByDue]
  | cons q qs ih =>
    unfold sortByDue at *
    simp only [List.foldr_cons, mem_insertByDue, ih, List.mem_cons]

theorem insertByDue_pairwise (p : Payment) (l : List Payment)
    (hl : l.Pairwise dueLE) : (insertByDue p l).Pairwise dueLE := by
  induction l with
  | nil => simp [insertByDue, List.pairwise_singleton]
  | cons q qs ih =>
    rw [List.pairwise_cons] at hl
    unfold insertByDue
    by_cases h : p.dueDate < q.dueDate
    · rw [if_pos h]
      refine List.Pairwise.cons ?_ (List.Pairwise.cons hl.1 hl.2)
      intro b hb
      rcases List.mem_cons.mp hb with rfl | hb
      · exact le_of_lt h
      · exact le_trans (le_of_lt h) (hl.1 b hb)
    · rw [if_neg h]
      refine List.Pairwise.cons ?_ (ih hl.2)
      intro b hb
      rcases mem_insertByDue.mp hb with rfl | hb2
      · exact le_of_not_lt h
      · exact hl.1 b hb2

theorem sortByDue_pairwise (l : List Payment) : (sortByDue l).Pairwise dueLE := by
  induction l with
  | nil => simp [sortByDue]
  | cons q qs ih => exact insertByDue_pairwise q _ ih

theorem mem_scheduledAfter {b : Payment} {ps : List Payment} {d : ℚ}
    (h : b ∈ scheduledAfter ps d) :
    b ∈ ps ∧ b.status = PStatus.scheduled ∧ d < b.dueDate := by
  unfold scheduledAfter at h
  rw [mem_sortByDue, List.mem_filter] at h
  refine ⟨h.1, ?_, ?_⟩
  · have := h.2
    simp only [Bool.and_eq_true, decide_eq_true_eq] at this
    exact this.1
  · have := h.2
    simp only [Bool.and_eq_true, decide_eq_true_eq] at this
    exact this.2

end LoanEngine

namespace LoanEngine

/-- A loan with its `monthlyPayment` replaced. -/
def loanWithPayment (loan : Loan) (m : ℚ) : Loan := { loan with monthlyPayment := m }

/-- The remaining balance the excess branch derives for this payment. -/
def derivedBalance (s : LoanState) (intent : PaymentIntent) (now : ℚ) (newId : Nat)
    (np : Payment) : ℚ :=
  codeBalanceOf s.loan (allRowsOf s intent now newId np) (intent.amount - np.amount)

/-- The still-scheduled rows due after the matched row, as re-read and sorted
by the excess branch. -/
def remainingSched (s : LoanState) (intent : PaymentIntent) (now : ℚ) (newId : Nat)
    (np : Payment) : List Payment :=
  scheduledAfter (allRowsOf s intent now newId np) np.dueDate

/-- C5: when the excess branch runs with balance above 0.01 and at least one
remaining scheduled row, the handler succeeds, re-amortizes the remaining
rows (sorted by due date) and sets the loan's monthly payment to the new
level payment; the rewritten rows satisfy the claimed walk recurrence
(interest = cursor·r, principal = payment − interest, cursor decreasing by
each principal portion, last row forced to the exact cursor), keeping each
row's id, due date and status. -/
theorem C5_reamortization_walk (s : LoanState) (intent : PaymentIntent) (now : ℚ)
    (newId : Nat) (np : Payment)
    (hrate : 0 ≤ s.loan.interestRate)
    (hst : s.loan.status = LStatus.active ∨ s.loan.status = LStatus.approved)
    (hnp : nextScheduled s.payments = some np)
    (hins : ¬ intent.amount + 1/1000000 < np.amount)
    (hpos : 0 < intent.amount - np.amount)
    (hbal : 1/100 < derivedBalance s intent now newId np)
    (hrem : remainingSched s intent now newId np ≠ []) :
    applyPayment s intent now newId =
      (Except.ok (),
        ⟨loanWithPayment s.loan
            (newMonthlyFor (derivedBalance s intent now newId np)
              (monthlyRateOf s.loan.interestRate)
              (remainingSched s intent now newId np).length),
          applyUpdates (allRowsOf s intent now newId np)
            (reamortWalk (monthlyRateOf s.loan.interestRate)
              (newMonthlyFor (derivedBalance s intent now newId np)
                (monthlyRateOf s.loan.interestRate)
                (remainingSched s intent now newId np).length)
              (derivedBalance s intent now newId np)
              (remainingSched s intent now newId np))⟩) ∧
      walkSpec (monthlyRateOf s.loan.interestRate)
        (newMonthlyFor (derivedBalance s intent now newId np)
          (monthlyRateOf s.loan.interestRate)
          (remainingSched s intent now newId np).length)
        (derivedBalance s intent now newId np)
        (remainingSched s intent now newId np)
        (reamortWalk (monthlyRateOf s.loan.interestRate)
          (newMonthlyFor (derivedBalance s intent now newId np)
            (monthlyRateOf s.loan.interestRate)
            (remainingSched s intent now newId np).length)
          (derivedBalance s intent now newId np)
          (remainingSched s intent now newId np)) ∧
      (remainingSched s intent now newId np).Pairwise dueLE := by
  have hr : 0 ≤ monthlyRateOf s.loan.interestRate := by
    unfold monthlyRateOf
    exact div_nonneg (div_nonneg hrate (by norm_num)) (by norm_num)
  have hB0 : (0:ℚ) ≤ derivedBalance s intent now newId np :=
    le_of_lt (lt_trans (by norm_num) hbal)
  have hT0 : (remainingSched s intent now newId np).length ≠ 0 := by
    simpa [List.length_eq_zero] using hrem
  refine ⟨?_, ?_, ?_⟩
  · unfold derivedBalance at hbal
    unfold remainingSched at hT0
    unfold derivedBalance remainingSched loanWithPayment
    unfold applyPayment
    rw [if_pos hst, hnp]
    dsimp only
    rw [if_neg hins, if_pos hpos]
    unfold applyExtraBranch
    dsimp only
    rw [if_neg hT0, if_neg (not_le.mpr hbal)]
  · exact reamortWalk_walkSpec _ _ _ _
      (fun k hk => iterBal_newMonthly_nonneg _ _ _ hB0 hr hT0 k hk)
  · unfold remainingSched scheduledAfter
    exact sortByDue_pairwise _

end LoanEngine

namespace LoanEngine

/-- Witness for C5 at the concrete prepayment scenario `s3`, `i3`. -/
theorem C5_reamortization_walk_witness :
    (1/100 < derivedBalance s3 i3 0 10 (schedP 1 1 1000 900 100) ∧
        remainingSched s3 i3 0 10 (schedP 1 1 1000 900 100) ≠ []) ∧
      walkSpec (monthlyRateOf s3.loan.interestRate)
        (newMonthlyFor (derivedBalance s3 i3 0 10 (schedP 1 1 1000 900 100))
          (monthlyRateOf s3.loan.interestRate)
          (remainingSched s3 i3 0 10 (schedP 1 1 1000 900 100)).length)
        (derivedBalance s3 i3 0 10 (schedP 1 1 1000 900 100))
        (remainingSched s3 i3 0 10 (schedP 1 1 1000 900 100))
        (reamortWalk (monthlyRateOf s3.loan.interestRate)
          (newMonthlyFor (derivedBalance s3 i3 0 10 (schedP 1 1 1000 900 100))
            (monthlyRateOf s3.loan.interestRate)
            (remainingSched s3 i3 0 10 (schedP 1 1 1000 900 100)).length)
          (derivedBalance s3 i3 0 10 (schedP 1 1 1000 900 100))
          (remainingSched s3 i3 0 10 (schedP 1 1 1000 900 100))) := by
  have hbal : 1/100 < derivedBalance s3 i3 0 10 (schedP 1 1 1000 900 100) := by
    norm_num +decide [derivedBalance, codeBalanceOf, allRowsOf, paidListOf, markPaid,
      prepayRow, sumPaidPrincipal, s3, i3, schedP, List.filter_cons]
  have hrem : remainingSched s3 i3 0 10 (schedP 1 1 1000 900 100) ≠ [] := by
    norm_num +decide [remainingSched, scheduledAfter, sortByDue, insertByDue, allRowsOf,
      paidListOf, markPaid, prepayRow, s3, i3, schedP, List.filter_cons]
  have hnp : nextScheduled s3.payments = some (schedP 1 1 1000 900 100) := by
    norm_num +decide [nextScheduled, chooseEarlier, s3, schedP, List.filter_cons]
  exact ⟨⟨hbal, hrem⟩,
    (C5_reamortization_walk s3 i3 0 10 (schedP 1 1 1000 900 100)
      (by norm_num [s3]) (Or.inl rfl) hnp (by norm_num [i3, schedP])
      (by norm_num [i3, schedP]) hbal hrem).2.1⟩

end LoanEngine

namespace LoanEngine

/-! ### The per-row sum invariant -/

/-- The engine's per-row invariant: fees are zero (every row the engine
creates has `fees = 0` and no operation writes `fees`) and
`amount = principal + interest + fees`. -/
def rowConsistent (p : Payment) : Prop :=
  p.fees = 0 ∧ p.amount = p.principal + p.interest + p.fees

theorem reamortWalk_consistent (r pay : ℚ) : ∀ (ps : List Payment) (c : ℚ),
    (∀ p ∈ ps, rowConsistent p) → ∀ u ∈ reamortWalk r pay c ps, rowConsistent u := by
  intro ps
  induction ps with
  | nil =>
    intro c _ u hu
    simp [reamortWalk] at hu
  | cons p ps ih =>
    intro c hps u hu
    cases ps with
    | nil =>
      simp only [reamortWalk, List.mem_singleton] at hu
      subst hu
      have hp := hps p (List.mem_cons_self _ _)
      unfold rowConsistent at hp ⊢
      refine ⟨hp.1, ?_⟩
      dsimp only
      rw [hp.1]
      ring
    | cons p2 ps2 =>
      simp only [reamortWalk, List.mem_cons] at hu
      rcases hu with rfl | hu
      · have hp := hps p (List.mem_cons_self _ _)
        unfold rowConsistent at hp ⊢
        refine ⟨hp.1, ?_⟩
        dsimp only
        rw [hp.1]
        ring
      · exact ih _ (fun q hq => hps q (List.mem_cons_of_mem _ hq)) u hu

theorem paidListOf_consistent (s : LoanState) (intent : PaymentIntent) (now : ℚ)
    (np : Payment) (h : ∀ p ∈ s.payments, rowConsistent p) (hnp : np ∈ s.payments) :
    ∀ p ∈ paidListOf s intent now np, rowConsistent p := by
  intro p hp
  unfold paidListOf at hp
  rcases List.mem_map.mp hp with ⟨q, hq, rfl⟩
  by_cases hid : q.id = np.id
  · rw [if_pos hid]
    exact h np hnp
  · rw [if_neg hid]
    exact h q hq

theorem allRowsOf_consistent (s : LoanState) (intent : PaymentIntent) (now : ℚ)
    (newId : Nat) (np : Payment) (h : ∀ p ∈ s.payments, rowConsistent p)
    (hnp : np ∈ s.payments) :
    ∀ p ∈ allRowsOf s intent now newId np, rowConsistent p := by
  intro p hp
  unfold allRowsOf at hp
  rcases List.mem_append.mp hp with hp1 | hp2
  · exact paidListOf_consistent s intent now np h hnp p hp1
  · rw [List.mem_singleton] at hp2
    subst hp2
    unfold rowConsistent prepayRow
    refine ⟨rfl, ?_⟩
    dsimp only
    ring

theorem applyExtraBranch_consistent (loan : Loan) (all : List Payment)
    (extra matchedDue : ℚ) (newId2 : Nat) (hall : ∀ p ∈ all, rowConsistent p) :
    ∀ p ∈ (applyExtraBranch loan all extra matchedDue newId2).payments, rowConsistent p := by
  unfold applyExtraBranch
  dsimp only
  split
  · split
    · exact hall
    · intro p hp
      rcases List.mem_append.mp hp with hp1 | hp2
      · exact hall p hp1
      · rw [List.mem_singleton] at hp2
        subst hp2
        unfold rowConsistent balloonRow
        refine ⟨rfl, ?_⟩
        dsimp only
        ring
  · split
    · intro p hp
      unfold cancelIds at hp
      rcases List.mem_map.mp hp with ⟨q, hq, rfl⟩
      by_cases hid : q.id ∈ (scheduledAfter all matchedDue).map Payment.id
      · rw [if_pos hid]
        have hc := hall q hq
        unfold rowConsistent at hc ⊢
        exact hc
      · rw [if_neg hid]
        exact hall q hq
    · intro p hp
      unfold applyUpdates at hp
      rcases List.mem_map.mp hp with ⟨q, hq, rfl⟩
      rcases hfind : (reamortWalk (monthlyRateOf loan.interestRate)
          (newMonthlyFor (codeBalanceOf loan all extra) (monthlyRateOf loan.interestRate)
            (scheduledAfter all matchedDue).length)
          (codeBalanceOf loan all extra) (scheduledAfter all matchedDue)).find?
          (fun u => decide (u.id = q.id)) with _ | u
      · rw [hfind]
        exact hall q hq
      · rw [hfind]
        have hu := List.mem_of_find?_eq_some hfind
        exact reamortWalk_consistent _ _ _ _
          (fun w hw => hall w (mem_scheduledAfter hw).1) u hu

theorem applyPayment_consistent (s : LoanState) (intent : PaymentIntent) (now : ℚ)
    (newId : Nat) (h : ∀ p ∈ s.payments, rowConsistent p) :
    ∀ p ∈ ((applyPayment s intent now newId).2).payments, rowConsistent p := by
  unfold applyPayment
  dsimp only
  split
  · split
    · exact h
    · rename_i np heq
      have hnp := nextScheduled_mem heq
      split
      · exact h
      · split
        · exact applyExtraBranch_consistent _ _ _ _ _
            (allRowsOf_consistent s intent now newId np h hnp.1)
        · exact paidListOf_consistent s intent now np h hnp.1
  · exact h

end LoanEngine

namespace LoanEngine

/-- C9: Installment sum invariant — every row of a generated schedule
satisfies `amountDue = principalPortion + interestPortion + feesPortion`
(with `feesPortion = 0`), and the invariant is preserved by every sequence
of successful `applyPayment` calls (which covers payment application,
prepayment-row insertion, balloon creation and re-amortization). -/
theorem C9_sum_invariant :
    (∀ (A rate : ℚ) (T : ℕ), ∀ p ∈ generateSchedule A rate T,
        p.fees = 0 ∧ p.amount = p.principal + p.interest + p.fees) ∧
      ∀ (s0 : LoanState) (reqs : List PayReq) (s : LoanState),
        applySeq s0 reqs = some s →
        (∀ p ∈ s0.payments, p.fees = 0 ∧ p.amount = p.principal + p.interest + p.fees) →
        ∀ p ∈ s.payments, p.fees = 0 ∧ p.amount = p.principal + p.interest + p.fees := by
  constructor
  · intro A rate T p hp
    unfold generateSchedule at hp
    rcases List.mem_map.mp hp with ⟨i, _, rfl⟩
    unfold scheduleRow
    refine ⟨rfl, ?_⟩
    dsimp only
    ring
  · intro s0 reqs
    induction reqs generalizing s0 with
    | nil =>
      intro s h h0
      simp only [applySeq, Option.some.injEq] at h
      exact h ▸ h0
    | cons req reqs ih =>
      intro s h h0
      simp only [applySeq] at h
      rcases hap : applyPayment s0 req.intent req.now req.newId with ⟨out, s1⟩
      rw [hap] at h
      cases out with
      | ok u =>
        refine ih s1 s h ?_
        have := applyPayment_consistent s0 req.intent req.now req.newId h0
        rw [hap] at this
        exact this
      | error e => simp at h

/-- Witness for C9: the single row of a one-month schedule, and the state
after one concrete exact payment. -/
theorem C9_sum_invariant_witness :
    ((scheduleRow 1000 (monthlyRateOf 6) (annuityPayment 1000 (monthlyRateOf 6) 1) 0).fees = 0 ∧
        (scheduleRow 1000 (monthlyRateOf 6) (annuityPayment 1000 (monthlyRateOf 6) 1) 0).amount =
          (scheduleRow 1000 (monthlyRateOf 6) (annuityPayment 1000 (monthlyRateOf 6) 1) 0).principal +
            (scheduleRow 1000 (monthlyRateOf 6) (annuityPayment 1000 (monthlyRateOf 6) 1) 0).interest +
            (scheduleRow 1000 (monthlyRateOf 6) (annuityPayment 1000 (monthlyRateOf 6) 1) 0).fees) ∧
      ∀ p ∈ demoS1.payments, p.fees = 0 ∧ p.amount = p.principal + p.interest + p.fees :=
  ⟨C9_sum_invariant.1 1000 6 1 _
      (by simp [generateSchedule, List.range, List.range.loop]),
    C9_sum_invariant.2 demoS0 [⟨demoIntent, 0, 5⟩] demoS1
      (by norm_num +decide [applySeq, applyPayment, demoS0, demoIntent, demoS1, nextScheduled,
        chooseEarlier, schedP, paidListOf, markPaid, List.filter_cons])
      (by norm_num +decide [demoS0, schedP, List.forall_mem_cons])⟩

end LoanEngine

namespace LoanEngine

/-! ### C10: over-overpayment -/

theorem mem_scheduledAfter_of {b : Payment} {ps : List Payment} {d : ℚ}
    (hb : b ∈ ps) (hs : b.status = PStatus.scheduled) (hd : d < b.dueDate) :
    b ∈ scheduledAfter ps d := by
  unfold scheduledAfter
  rw [mem_sortByDue, List.mem_filter]
  refine ⟨hb, ?_⟩
  simp [hs, hd]

theorem sumPaidPrincipal_append_prepay (l : List Payment) (newId : Nat)
    (extra d now : ℚ) (intent : PaymentIntent) :
    sumPaidPrincipal (l ++ [prepayRow newId extra d now intent]) =
      sumPaidPrincipal l + extra := by
  unfold sumPaidPrincipal prepayRow
  rw [List.filter_append, List.map_append, List.sum_append]
  simp [List.filter_cons]

theorem mem_paidListOf_scheduled {s : LoanState} {intent : PaymentIntent} {now : ℚ}
    {np q : Payment} (hq : q ∈ paidListOf s intent now np)
    (hs : q.status = PStatus.scheduled) : q ∈ s.payments ∧ q.id ≠ np.id := by
  unfold paidListOf at hq
  rcases List.mem_map.mp hq with ⟨w, hw, rfl⟩
  by_cases h : w.id = np.id
  · simp only [if_pos h] at hs
    exact absurd hs (by simp [markPaid])
  · simp only [if_neg h] at hs ⊢
    exact ⟨hw, h⟩

/-- Any row of the reloaded `all` list that is still scheduled was already a
scheduled row of the original state other than the matched one. -/
theorem mem_allRowsOf_scheduled {s : LoanState} {intent : PaymentIntent} {now : ℚ}
    {newId : Nat} {np q : Payment} (hq : q ∈ allRowsOf s intent now newId np)
    (hs : q.status = PStatus.scheduled) : q ∈ s.payments ∧ q.id ≠ np.id := by
  unfold allRowsOf at hq
  rcases List.mem_append.mp hq with h1 | h2
  · exact mem_paidListOf_scheduled h1 hs
  · rw [List.mem_singleton] at h2
    subst h2
    exact absurd hs (by simp [prepayRow])

end LoanEngine

namespace LoanEngine

/-- When the matched row is strictly earliest among scheduled rows, any
still-scheduled row of the reloaded list belongs to the remaining-schedule
query. -/
theorem scheduled_in_remaining {s : LoanState} {intent : PaymentIntent} {now : ℚ}
    {newId : Nat} {np : Payment}
    (htie : ∀ p ∈ s.payments, p.status = PStatus.scheduled →
      p = np ∨ np.dueDate < p.dueDate)
    {q : Payment} (hq : q ∈ allRowsOf s intent now newId np)
    (hs : q.status = PStatus.scheduled) :
    q ∈ scheduledAfter (allRowsOf s intent now newId np) np.dueDate := by
  have h2 := mem_allRowsOf_scheduled hq hs
  rcases htie q h2.1 hs with rfl | hd
  · exact absurd rfl h2.2
  · exact mem_scheduledAfter_of hq hs hd

/-- C10 (amended): a successful payment whose excess strictly exceeds the
outstanding balance after the matched installment still succeeds and records
the full, uncapped excess as a Paid prepayment row; no scheduled row remains
(the remaining ones are cancelled) and the loan is completed — but
`monthlyPayment` is set to 0 only when scheduled rows remained; when the
matched installment was the last one, `monthlyPayment` keeps its previous
value. -/
theorem C10_over_overpayment (s : LoanState) (intent : PaymentIntent) (now : ℚ)
    (newId : Nat) (np : Payment)
    (hst : s.loan.status = LStatus.active ∨ s.loan.status = LStatus.approved)
    (hnp : nextScheduled s.payments = some np)
    (hpos : 0 < intent.amount - np.amount)
    (hover : s.loan.loanAmount - sumPaidPrincipal (paidListOf s intent now np) <
      intent.amount - np.amount)
    (hf1 : newId ∉ s.payments.map Payment.id)
    (htie : ∀ p ∈ s.payments, p.status = PStatus.scheduled →
      p = np ∨ np.dueDate < p.dueDate) :
    (applyPayment s intent now newId).1 = Except.ok () ∧
      prepayRow newId (intent.amount - np.amount) np.dueDate now intent ∈
        ((applyPayment s intent now newId).2).payments ∧
      (∀ p' ∈ ((applyPayment s intent now newId).2).payments,
        p'.status ≠ PStatus.scheduled) ∧
      ((applyPayment s intent now newId).2).loan.status = LStatus.completed ∧
      (remainingSched s intent now newId np = [] →
        ((applyPayment s intent now newId).2).loan.monthlyPayment =
          s.loan.monthlyPayment) ∧
      (remainingSched s intent now newId np ≠ [] →
        ((applyPayment s intent now newId).2).loan.monthlyPayment = 0) := by
  have hins : ¬ intent.amount + 1/1000000 < np.amount := not_lt.mpr (by linarith)
  have hbal : codeBalanceOf s.loan (allRowsOf s intent now newId np)
      (intent.amount - np.amount) ≤ 1/100 := by
    unfold codeBalanceOf allRowsOf
    rw [sumPaidPrincipal_append_prepay]
    linarith
  have hfresh : newId ∉ (scheduledAfter (allRowsOf s intent now newId np) np.dueDate).map
      Payment.id := by
    intro hmem
    rcases List.mem_map.mp hmem with ⟨v, hv, hvid⟩
    have hva := mem_scheduledAfter hv
    have h2 := mem_allRowsOf_scheduled hva.1 hva.2.1
    exact hf1 (List.mem_map.mpr ⟨v, h2.1, hvid⟩)
  unfold remainingSched
  unfold applyPayment
  rw [if_pos hst, hnp]
  dsimp only
  rw [if_neg hins, if_pos hpos]
  unfold applyExtraBranch
  dsimp only
  split
  case isTrue hlen =>
    refine ⟨rfl, List.mem_append_right _ (List.mem_singleton.mpr rfl), ?_, rfl,
      fun _ => rfl, fun hne => absurd (List.length_eq_zero.mp hlen) hne⟩
    intro p' hp' hs'
    have hmem := scheduled_in_remaining htie hp' hs'
    rw [List.length_eq_zero.mp hlen] at hmem
    simp at hmem
  case isFalse hlen =>
    refine ⟨rfl, ?_, ?_, rfl,
      fun heq => absurd (by rw [heq] : (scheduledAfter (allRowsOf s intent now newId np)
        np.dueDate).length = List.length []) hlen, fun _ => rfl⟩
    · unfold cancelIds
      refine List.mem_map.mpr ⟨prepayRow newId (intent.amount - np.amount) np.dueDate now intent,
        ?_, ?_⟩
      · exact List.mem_append_right _ (List.mem_singleton.mpr rfl)
      · exact if_neg hfresh
    · intro p' hp' hs'
      unfold cancelIds at hp'
      rcases List.mem_map.mp hp' with ⟨q, hq, rfl⟩
      by_cases hid : q.id ∈ (scheduledAfter (allRowsOf s intent now newId np) np.dueDate).map
          Payment.id
      · simp only [if_pos hid] at hs'
        exact absurd hs' (by simp)
      · simp only [if_neg hid] at hs'
        have hmem := scheduled_in_remaining htie hq hs'
        exact hid (List.mem_map.mpr ⟨q, hmem, rfl⟩)

end LoanEngine

namespace LoanEngine

/-- The C10 witness state: principal 1000, two scheduled installments of 300
(principal 250) due at ordinates 1 and 2. -/
def s10b : LoanState :=
  { loan := { loanAmount := 1000, interestRate := 12, loanTerm := 2, status := LStatus.active,
              monthlyPayment := 300 },
    payments := [schedP 1 1 300 250 50, schedP 2 2 300 250 50] }

/-- A payment of 2300 against the 300 due: excess 2000 exceeds the whole
balance. -/
def i10b : PaymentIntent := { amount := 2300, method := "cash", reference := none, notes := none }

/-- Witness for C10 at the concrete over-overpayment scenario `s10b`,
`i10b`. -/
theorem C10_over_overpayment_witness :
    (0 < i10b.amount - (schedP 1 1 300 250 50).amount ∧
        s10b.loan.loanAmount - sumPaidPrincipal (paidListOf s10b i10b 0 (schedP 1 1 300 250 50)) <
          i10b.amount - (schedP 1 1 300 250 50).amount) ∧
      ((applyPayment s10b i10b 0 10).1 = Except.ok () ∧
        prepayRow 10 (i10b.amount - (schedP 1 1 300 250 50).amount)
            (schedP 1 1 300 250 50).dueDate 0 i10b ∈
          ((applyPayment s10b i10b 0 10).2).payments ∧
        (∀ p' ∈ ((applyPayment s10b i10b 0 10).2).payments,
          p'.status ≠ PStatus.scheduled) ∧
        ((applyPayment s10b i10b 0 10).2).loan.status = LStatus.completed ∧
        (remainingSched s10b i10b 0 10 (schedP 1 1 300 250 50) = [] →
          ((applyPayment s10b i10b 0 10).2).loan.monthlyPayment = s10b.loan.monthlyPayment) ∧
        (remainingSched s10b i10b 0 10 (schedP 1 1 300 250 50) ≠ [] →
          ((applyPayment s10b i10b 0 10).2).loan.monthlyPayment = 0)) := by
  have hpos : 0 < i10b.amount - (schedP 1 1 300 250 50).amount := by norm_num [i10b, schedP]
  have hover : s10b.loan.loanAmount -
      sumPaidPrincipal (paidListOf s10b i10b 0 (schedP 1 1 300 250 50)) <
      i10b.amount - (schedP 1 1 300 250 50).amount := by
    norm_num +decide [s10b, i10b, schedP, paidListOf, markPaid, sumPaidPrincipal,
      List.filter_cons]
  refine ⟨⟨hpos, hover⟩, ?_⟩
  apply C10_over_overpayment s10b i10b 0 10 (schedP 1 1 300 250 50) (Or.inl rfl)
    (by norm_num +decide [nextScheduled, chooseEarlier, s10b, schedP, List.filter_cons])
    hpos hover
    (by norm_num +decide [s10b, schedP])
  intro p hp hs
  simp only [s10b, List.mem_cons, List.mem_singleton] at hp
  rcases hp with rfl | rfl | hp
  · left
    rfl
  · right
    norm_num [schedP]
  · simp at hp

end LoanEngine

namespace LoanEngine

/-! ### C6: monotonicity of installment status under the payment handler -/

theorem eq_of_mem_of_id_eq {l : List Payment} (hnd : (l.map Payment.id).Nodup)
    {a b : Payment} (ha : a ∈ l) (hb : b ∈ l) (hid : a.id = b.id) : a = b :=
  List.inj_on_of_nodup_map hnd ha hb hid

theorem paidListOf_ids (s : LoanState) (intent : PaymentIntent) (now : ℚ) (np : Payment) :
    (paidListOf s intent now np).map Payment.id = s.payments.map Payment.id := by
  unfold paidListOf
  rw [List.map_map]
  apply List.map_congr_left
  intro q hq
  by_cases h : q.id = np.id
  · simp [h, markPaid]
  · simp [h]

theorem allRowsOf_ids (s : LoanState) (intent : PaymentIntent) (now : ℚ) (newId : Nat)
    (np : Payment) :
    (allRowsOf s intent now newId np).map Payment.id =
      s.payments.map Payment.id ++ [newId] := by
  unfold allRowsOf
  rw [List.map_append, paidListOf_ids]
  rfl

/-- Every row produced by the walk keeps the id, status and due date of one
of the rows it walked over. -/
theorem reamortWalk_mem_shape (r pay : ℚ) : ∀ (ps : List Payment) (c : ℚ) (u : Payment),
    u ∈ reamortWalk r pay c ps →
    ∃ p ∈ ps, u.id = p.id ∧ u.status = p.status ∧ u.dueDate = p.dueDate := by
  intro ps
  induction ps with
  | nil =>
    intro c u hu
    simp [reamortWalk] at hu
  | cons p ps ih =>
    intro c u hu
    cases ps with
    | nil =>
      simp only [reamortWalk, List.mem_singleton] at hu
      subst hu
      exact ⟨p, List.mem_cons_self _ _, rfl, rfl, rfl⟩
    | cons p2 ps2 =>
      simp only [reamortWalk, List.mem_cons] at hu
      rcases hu with rfl | hu
      · exact ⟨p, List.mem_cons_self _ _, rfl, rfl, rfl⟩
      · rcases ih _ u hu with ⟨v, hv, hshape⟩
        exact ⟨v, List.mem_cons_of_mem _ hv, hshape⟩

theorem paidListOf_id_cases (s : LoanState) (intent : PaymentIntent) (now : ℚ)
    (np : Payment) (hnd : (s.payments.map Payment.id).Nodup)
    (hnpm : np ∈ s.payments) (hnps : np.status = PStatus.scheduled)
    {p p' : Payment} (hp : p ∈ s.payments) (hp' : p' ∈ paidListOf s intent now np)
    (hid : p'.id = p.id) : p' = p ∨ p.status = PStatus.scheduled := by
  unfold paidListOf at hp'
  rcases List.mem_map.mp hp' with ⟨q, hq, rfl⟩
  by_cases h : q.id = np.id
  · simp only [if_pos h] at hid ⊢
    have hqnp : q = np := eq_of_mem_of_id_eq hnd hq hnpm h
    have hpnp : p = np := by
      apply eq_of_mem_of_id_eq hnd hp hnpm
      rw [← hid]
      simp [markPaid]
    right
    rw [hpnp]
    exact hnps
  · simp only [if_neg h] at hid ⊢
    left
    exact eq_of_mem_of_id_eq hnd hq hp hid

end LoanEngine

namespace LoanEngine

theorem applyExtraBranch_id_cases (loan : Loan) (all : List Payment)
    (extra matchedDue : ℚ) (newId2 : Nat)
    (hnd : (all.map Payment.id).Nodup) (hf : newId2 ∉ all.map Payment.id)
    {q q' : Payment} (hq : q ∈ all)
    (hq' : q' ∈ (applyExtraBranch loan all extra matchedDue newId2).payments)
    (hid : q'.id = q.id) : q' = q ∨ q.status = PStatus.scheduled := by
  unfold applyExtraBranch at hq'
  dsimp only at hq'
  split at hq'
  · split at hq'
    · left
      exact eq_of_mem_of_id_eq hnd hq' hq hid
    · rcases List.mem_append.mp hq' with h1 | h2
      · left
        exact eq_of_mem_of_id_eq hnd h1 hq hid
      · rw [List.mem_singleton] at h2
        subst h2
        exact absurd (List.mem_map.mpr ⟨q, hq, hid.symm⟩) hf
  · split at hq'
    · unfold cancelIds at hq'
      rcases List.mem_map.mp hq' with ⟨w, hw, rfl⟩
      by_cases hmem : w.id ∈ (scheduledAfter all matchedDue).map Payment.id
      · simp only [if_pos hmem] at hid ⊢
        right
        have hwq : w = q := eq_of_mem_of_id_eq hnd hw hq hid
        rcases List.mem_map.mp hmem with ⟨v, hv, hvid⟩
        have hvmem := mem_scheduledAfter hv
        have hvw : v = w := eq_of_mem_of_id_eq hnd hvmem.1 hw hvid
        rw [← hwq, ← hvw]
        exact hvmem.2.1
      · simp only [if_neg hmem] at hid ⊢
        left
        exact eq_of_mem_of_id_eq hnd hw hq hid
    · unfold applyUpdates at hq'
      rcases List.mem_map.mp hq' with ⟨w, hw, rfl⟩
      rcases hfind : (reamortWalk (monthlyRateOf loan.interestRate)
          (newMonthlyFor (codeBalanceOf loan all extra) (monthlyRateOf loan.interestRate)
            (scheduledAfter all matchedDue).length)
          (codeBalanceOf loan all extra) (scheduledAfter all matchedDue)).find?
          (fun u => decide (u.id = w.id)) with _ | u
      · simp only [hfind] at hid ⊢
        left
        exact eq_of_mem_of_id_eq hnd hw hq hid
      · simp only [hfind] at hid ⊢
        right
        have hu := List.mem_of_find?_eq_some hfind
        rcases reamortWalk_mem_shape _ _ _ _ _ hu with ⟨v, hv, hvid, hvstat, _⟩
        have hvmem := mem_scheduledAfter hv
        have hvq : v = q := by
          apply eq_of_mem_of_id_eq hnd hvmem.1 hq
          rw [← hvid]
          exact hid
        rw [← hvq]
        exact hvmem.2.1

theorem applyPayment_id_cases (s : LoanState) (intent : PaymentIntent) (now : ℚ)
    (newId : Nat) (hnd : (s.payments.map Payment.id).Nodup)
    (hf1 : newId ∉ s.payments.map Payment.id)
    (hf2 : newId + 1 ∉ s.payments.map Payment.id)
    {p p' : Payment} (hp : p ∈ s.payments)
    (hp' : p' ∈ ((applyPayment s intent now newId).2).payments)
    (hid : p'.id = p.id) : p' = p ∨ p.status = PStatus.scheduled := by
  revert hp'
  unfold applyPayment
  dsimp only
  split
  · split
    · intro hp'
      left
      exact eq_of_mem_of_id_eq hnd hp' hp hid
    · rename_i np heq
      have hnpm := nextScheduled_mem heq
      split
      · intro hp'
        left
        exact eq_of_mem_of_id_eq hnd hp' hp hid
      · split
        · intro hp'
          by_cases hpid : p.id = np.id
          · right
            have : p = np := eq_of_mem_of_id_eq hnd hp hnpm.1 hpid
            rw [this]
            exact hnpm.2
          · have hpall : p ∈ allRowsOf s intent now newId np := by
              unfold allRowsOf paidListOf
              apply List.mem_append_left
              exact List.mem_map.mpr ⟨p, hp, by rw [if_neg hpid]⟩
            have hndall : ((allRowsOf s intent now newId np).map Payment.id).Nodup := by
              rw [allRowsOf_ids]
              rw [List.nodup_append]
              exact ⟨hnd, List.nodup_singleton _, by simpa using hf1⟩
            have hfall : newId + 1 ∉ (allRowsOf s intent now newId np).map Payment.id := by
              rw [allRowsOf_ids]
              intro hmem
              rcases List.mem_append.mp hmem with h1 | h2
              · exact hf2 h1
              · rw [List.mem_singleton] at h2
                omega
            exact applyExtraBranch_id_cases s.loan _ _ _ _ hndall hfall hpall ‹_› hid
        · intro hp'
          exact paidListOf_id_cases s intent now np hnd hnpm.1 hnpm.2 hp hp' hid
  · intro hp'
    left
    exact eq_of_mem_of_id_eq hnd hp' hp hid

end LoanEngine

namespace LoanEngine

/-- C6 (amended): the payment handler (`applyPayment`, covering payment
application, prepayment insertion, cancellation and re-amortization) never
moves an installment out of Paid or Cancelled, given database-unique row ids
and fresh ids for the rows it creates; the `PATCH /payments/:id` endpoint,
however, can set any validated status and does transition Paid → Scheduled
(see the counterexample). -/
theorem C6_monotonic_status (s : LoanState) (intent : PaymentIntent) (now : ℚ)
    (newId : Nat) (hnd : (s.payments.map Payment.id).Nodup)
    (hf1 : newId ∉ s.payments.map Payment.id)
    (hf2 : newId + 1 ∉ s.payments.map Payment.id)
    (p p' : Payment) (hp : p ∈ s.payments)
    (hp' : p' ∈ ((applyPayment s intent now newId).2).payments)
    (hid : p'.id = p.id) :
    (p.status = PStatus.paid → p'.status = PStatus.paid) ∧
      (p.status = PStatus.cancelled → p'.status = PStatus.cancelled) := by
  rcases applyPayment_id_cases s intent now newId hnd hf1 hf2 hp hp' hid with rfl | hs
  · exact ⟨fun h => h, fun h => h⟩
  · constructor <;> intro hst <;> rw [hs] at hst <;> cases hst

/-- The C6 witness state: a paid row (id 3) and a scheduled row (id 4). -/
def s6 : LoanState :=
  { loan := { loanAmount := 2000, interestRate := 12, loanTerm := 2, status := LStatus.active,
              monthlyPayment := 100 },
    payments := [paidRow6, schedP 4 2 100 90 10] }

/-- An exact payment of the scheduled row of `s6`. -/
def i6 : PaymentIntent := { amount := 100, method := "cash", reference := none, notes := none }

/-- Witness for C6 at the concrete state `s6`: the paid row survives the
payment of the other row with its status intact. -/
theorem C6_monotonic_status_witness :
    ((s6.payments.map Payment.id).Nodup ∧
        10 ∉ s6.payments.map Payment.id ∧
        10 + 1 ∉ s6.payments.map Payment.id ∧
        paidRow6 ∈ s6.payments ∧
        paidRow6 ∈ ((applyPayment s6 i6 0 10).2).payments ∧
        paidRow6.status = PStatus.paid) ∧
      ((paidRow6.status = PStatus.paid → paidRow6.status = PStatus.paid) ∧
        (paidRow6.status = PStatus.cancelled → paidRow6.status = PStatus.cancelled)) := by
  have hmem : paidRow6 ∈ ((applyPayment s6 i6 0 10).2).payments := by
    norm_num +decide [applyPayment, s6, i6, nextScheduled, chooseEarlier, schedP, paidRow6,
      paidListOf, markPaid, List.filter_cons]
  refine ⟨⟨by decide, by decide, by decide, List.mem_cons_self _ _, hmem, rfl⟩, ?_⟩
  exact C6_monotonic_status s6 i6 0 10 (by decide) (by decide) (by decide)
    paidRow6 paidRow6 (List.mem_cons_self _ _) hmem rfl

end LoanEngine
